import Mathlib

/-!
# Verification of clamber-web-core proxy components

A shallow embedding of the proxy modules of `clamber-web-core`
(`src/proxy/static_file_service.rs`, `src/proxy/simple_proxy_service.rs`,
`src/proxy/enhanced_proxy_service.rs`, `src/proxy/proxy_config.rs`).

Rust `&str` values are modelled as `List Char`; filesystem paths built by
`PathBuf::push` are modelled as `List (List Char)` (one entry per path
component).  Fallible Rust functions returning `Result` are modelled with
`Except`.  The filesystem itself is abstracted as a record of a `stat`
function and a `read` function, since the code only observes those.
-/

namespace ClamberWebCore

/-- Model of Rust's `str::split(sep)` for a single-character separator:
splitting `""` yields `[""]`, separators at the ends yield empty pieces. -/
def splitChar (sep : Char) : List Char → List (List Char)
  | [] => [[]]
  | c :: cs =>
    if c = sep then [] :: splitChar sep cs
    else
      match splitChar sep cs with
      | [] => [[c]]
      | h :: t => (c :: h) :: t

/-- Model of Rust's `str::strip_prefix`. -/
def stripPrefixChars : List Char → List Char → Option (List Char)
  | [], s => some s
  | _ :: _, [] => none
  | p :: ps, c :: cs => if p = c then stripPrefixChars ps cs else none

/-!
## `StaticFileService` (static_file_service.rs)

`sanitize_path` (lines 44-67) drops the query (`split('?').next()`) and the
fragment (`split('#').next()`), then walks `Path::components()` of the
remaining string and pushes only the `Normal` components onto a clone of
`root`.  On Unix, the `Normal` components of a relative or absolute path
string are exactly the pieces obtained by splitting on `'/'` that are
neither empty (root marker, duplicate slashes) nor `"."` (current dir) nor
`".."` (parent dir).
-/

/-- `path.split('?').next().unwrap_or(path)` followed by the same for `'#'`:
strip everything from the first `'?'`, then from the first `'#'`. -/
def cleanRequestPath (path : List Char) : List Char :=
  let noQuery := (splitChar '?' path).headD path
  (splitChar '#' noQuery).headD noQuery

/-- Whether a path component is `Component::Normal`. -/
def isNormalComponent (c : List Char) : Bool :=
  decide (c ≠ [] ∧ c ≠ ['.'] ∧ c ≠ ['.', '.'])

/-- The component loop of `sanitize_path`: starting from `root`, push each
`Normal` component, `continue` past every other component. -/
def pushComponents (root : List (List Char)) : List (List Char) → List (List Char)
  | [] => root
  | c :: cs =>
    if isNormalComponent c then pushComponents (root ++ [c]) cs
    else pushComponents root cs

/-- `StaticFileService::sanitize_path`, the pure path computation. -/
def sanitizePath (root : List (List Char)) (path : List Char) : List (List Char) :=
  pushComponents root (splitChar '/' (cleanRequestPath path))

/-- Abstract I/O failures observable through `tokio::fs`. -/
inductive FsError where
  | permissionDenied : FsError
  | otherFailure : FsError
  deriving DecidableEq, Repr

/-- `sanitize_path` with the `std::io::Result` signature of the source.
The body of the Rust function contains no fallible operation and its only
`return` is `Ok(full_path)`. -/
def sanitizePathResult (root : List (List Char)) (path : List Char) :
    Except FsError (List (List Char)) :=
  Except.ok (sanitizePath root path)

/-- What `full_path.exists()` and `full_path.is_file()` can observe about a
path: nothing there, a non-regular entry (e.g. a directory), or a regular
file. -/
inductive FileKind where
  | missing : FileKind
  | directory : FileKind
  | regular : FileKind
  deriving DecidableEq, Repr

/-- The filesystem as observed by `serve_file`: a `stat` view and the
outcome of `File::open` + `read_to_end` (file bytes as `List Nat`). -/
structure FileSystem where
  stat : List (List Char) → FileKind
  read : List (List Char) → Except FsError (List Nat)

/-- The fixed payload `b"Not Found".to_vec()`. -/
def notFoundBytes : List Nat := "Not Found".data.map Char.toNat

/-- `full_path.exists()`. -/
def pathExists (fs : FileSystem) (p : List (List Char)) : Bool :=
  decide (fs.stat p ≠ FileKind.missing)

/-- `full_path.is_file()`. -/
def pathIsFile (fs : FileSystem) (p : List (List Char)) : Bool :=
  decide (fs.stat p = FileKind.regular)

/-- The body of `serve_file` (static_file_service.rs 24-41) after the path
has been sanitized: the existence/regularity guard returns the fixed
`"Not Found"` payload as a success; otherwise the file is read and any
read error propagates via `?`. -/
def serveFileCore (fs : FileSystem) (fullPath : List (List Char)) :
    Except FsError (List Nat) :=
  if !pathExists fs fullPath || !pathIsFile fs fullPath then Except.ok notFoundBytes
  else fs.read fullPath

/-- `StaticFileService::serve_file`. -/
def serveFile (fs : FileSystem) (root : List (List Char)) (path : List Char) :
    Except FsError (List Nat) :=
  match sanitizePathResult root path with
  | Except.error e => Except.error e
  | Except.ok fullPath => serveFileCore fs fullPath

/-- Rust `Path::extension` on a Unix path string: the portion of the file
name (its last `'/'`-piece) after the file name's last `'.'`; `none` when
the file name has no `'.'` or when its only `'.'` is the leading character
(hidden files such as `".bashrc"`). -/
def extensionOf (p : List Char) : Option (List Char) :=
  let fileName := (splitChar '/' p).getLastD []
  let dotPieces := splitChar '.' fileName
  match dotPieces with
  | [] => none
  | [_] => none
  | first :: _ :: _ =>
    if first = [] ∧ dotPieces.length = 2 then none
    else some (dotPieces.getLastD [])

/-- `StaticFileService::guess_content_type` (static_file_service.rs 70-86). -/
def guessContentType (p : List Char) : String :=
  match extensionOf p with
  | some e =>
    if e = "html".data ∨ e = "htm".data then "text/html"
    else if e = "css".data then "text/css"
    else if e = "js".data then "application/javascript"
    else if e = "json".data then "application/json"
    else if e = "png".data then "image/png"
    else if e = "jpg".data ∨ e = "jpeg".data then "image/jpeg"
    else if e = "gif".data then "image/gif"
    else if e = "svg".data then "image/svg+xml"
    else if e = "ico".data then "image/x-icon"
    else if e = "txt".data then "text/plain"
    else if e = "xml".data then "application/xml"
    else if e = "pdf".data then "application/pdf"
    else "application/octet-stream"
  | none => "application/octet-stream"

/-!
## Proxy configuration (proxy_config.rs)
-/

/-- `LocationType` from proxy_config.rs. -/
inductive LocationType where
  | proxy : LocationType
  | staticFiles : LocationType
  deriving DecidableEq, Repr

/-- `LocationConfig` from proxy_config.rs. -/
structure LocationConfig where
  path : List Char
  location_type : LocationType
  proxy_pass : Option (List Char)
  root : Option (List Char)
  index : Option (List (List Char))
  deriving DecidableEq, Repr

/-- `UpstreamConfig` from proxy_config.rs (the serde default of
`lb_strategy` is `"roundrobin"`). -/
structure UpstreamConfig where
  servers : List (List Char)
  lb_strategy : List Char
  deriving DecidableEq, Repr

/-- `ProxyConfig` from proxy_config.rs; the `upstreams` `HashMap` is
modelled as an association list queried by key equality. -/
structure ProxyConfig where
  server_name : List Char
  listen : List Char
  ssl : Bool
  ssl_cert : Option (List Char)
  ssl_key : Option (List Char)
  upstreams : List (List Char × UpstreamConfig)
  locations : List LocationConfig
  deriving DecidableEq, Repr

/-!
## `find_location` (simple_proxy_service.rs 28-39, enhanced_proxy_service.rs 43-54)

The Rust code collects the locations, sorts them with the stable
`slice::sort_by` using the comparator `b.path.len().cmp(&a.path.len())`
(descending byte length, declaration order preserved on ties), and returns
the first location in the sorted order whose `path` is a prefix of the
request path (`str::starts_with`, byte-wise).  `insertLoc`/`sortLocs`
implement that stable descending insertion sort: an element is inserted
before the first already placed element whose length is `≤` its own, which
keeps earlier-declared elements first among equal lengths.  (Among
locations whose paths are prefixes of the same request path, byte length
and character length induce identical comparisons, so `List.length` over
`List Char` is faithful.)
-/

/-- One insertion step of the stable descending-by-length sort. -/
def insertLoc (x : LocationConfig) : List LocationConfig → List LocationConfig
  | [] => [x]
  | y :: ys =>
    if y.path.length ≤ x.path.length then x :: y :: ys else y :: insertLoc x ys

/-- The stable sort by descending `path` length used by `find_location`. -/
def sortLocs : List LocationConfig → List LocationConfig
  | [] => []
  | x :: xs => insertLoc x (sortLocs xs)

/-- `SimpleProxyService::find_location` / `EnhancedProxyService::find_location`. -/
def findLocation (locs : List LocationConfig) (path : List Char) : Option LocationConfig :=
  (sortLocs locs).find? (fun loc => loc.path.isPrefixOf path)

/-- Modelled from the spec: among all rules whose path is a literal prefix
of the request path, select the one with the longest path; when several
share that maximal length, select the one declared earliest; `none` when no
rule matches.  (Recursion on the head: the head rule, declared earliest,
beats the best of the tail unless the tail's best is strictly longer.) -/
def specResolve (path : List Char) : List LocationConfig → Option LocationConfig
  | [] => none
  | l :: ls =>
    match specResolve path ls with
    | none => if l.path.isPrefixOf path then some l else none
    | some b =>
      if l.path.isPrefixOf path then
        if b.path.length > l.path.length then some b else some l
      else some b

/-!
## Upstream selection and `upstream_peer`
(simple_proxy_service.rs 50-57 and 68-116, enhanced_proxy_service.rs 65-72 and 83-131)

Despite its doc comment ("简单的轮询实现", simple round-robin
implementation) and the `lb_strategy` config field whose serde default is
`"roundrobin"`, the body of `select_upstream_server` keeps no cursor and
never reads `lb_strategy`: it returns `upstream_config.servers.first()`
on every call.
-/

/-- `select_upstream_server`: `upstream_config.servers.first()`. -/
def selectUpstreamServer (u : UpstreamConfig) : Option (List Char) :=
  u.servers.head?

/-- The selections observed by `n` sequential calls of
`select_upstream_server` on the same upstream configuration: the function
reads no mutable state, so every call returns the same value. -/
def selectSequence (n : Nat) (u : UpstreamConfig) : List (Option (List Char)) :=
  List.replicate n (selectUpstreamServer u)

/-- `get_upstream_config`, a `HashMap::get` on the `upstreams` map
(association-list model, first binding wins). -/
def getUpstreamConfig (cfg : ProxyConfig) (name : List Char) : Option UpstreamConfig :=
  (cfg.upstreams.find? (fun kv => kv.1 == name)).map (fun kv => kv.2)

/-- `HttpPeer::new(server, tls, sni)` as constructed by `upstream_peer`. -/
structure HttpPeer where
  addr : List Char
  tls : Bool
  sni : List Char
  deriving DecidableEq, Repr

/-- The dispatch-time errors `upstream_peer` constructs via
`pingora::Error::explain(InternalError, msg)`, one constructor per
distinct message string. -/
inductive PeerError where
  | noMatchingLocation : PeerError
  | noProxyPass : PeerError
  | unknownUpstream : PeerError
  | emptyUpstream : PeerError
  deriving DecidableEq, Repr

/-- `SimpleProxyService::upstream_peer` (the session is reduced to the
request path it reads); `EnhancedProxyService::upstream_peer` is
line-for-line identical. -/
def upstreamPeer (cfg : ProxyConfig) (path : List Char) : Except PeerError HttpPeer :=
  match findLocation cfg.locations path with
  | none => Except.error PeerError.noMatchingLocation
  | some loc =>
    match loc.location_type with
    | LocationType.proxy =>
      match loc.proxy_pass with
      | none => Except.error PeerError.noProxyPass
      | some upstreamName =>
        match getUpstreamConfig cfg upstreamName with
        | none => Except.error PeerError.unknownUpstream
        | some upstreamConfig =>
          match selectUpstreamServer upstreamConfig with
          | none => Except.error PeerError.emptyUpstream
          | some server => Except.ok ⟨server, cfg.ssl, cfg.server_name⟩
    | LocationType.staticFiles =>
      Except.ok ⟨"127.0.0.1:1".data, false, "static".data⟩

/-!
## Path rewrite (simple_proxy_service.rs 118-164) and the enhanced filter
(enhanced_proxy_service.rs 133-177)
-/

/-- The path-and-query rewrite of `SimpleProxyService::upstream_request_filter`:
`path.strip_prefix(&location.path).unwrap_or(path)`, then
`format!("/{}?{}", new_path, query)` or `format!("/{}", new_path)` — a
`'/'` is always prepended to the stripped remainder. -/
def rewritePathAndQuery (locPath reqPath : List Char) (query : Option (List Char)) :
    List Char :=
  let newPath := (stripPrefixChars locPath reqPath).getD reqPath
  match query with
  | some q => '/' :: (newPath ++ '?' :: q)
  | none => '/' :: newPath

/-- Modelled from the spec (the claim's wording): the rewritten path is the
request path with the matched rule prefix removed from the front, with
`"/"` substituted when the remainder is empty, and the original query
string re-appended when present. -/
def claimRewritePathAndQuery (locPath reqPath : List Char) (query : Option (List Char)) :
    List Char :=
  let remainder := (stripPrefixChars locPath reqPath).getD reqPath
  let newPath := if remainder = [] then ['/'] else remainder
  match query with
  | some q => newPath ++ '?' :: q
  | none => newPath

/-- The host/port extraction of `EnhancedProxyService::upstream_request_filter`
(enhanced_proxy_service.rs 156-162): `server.split(':').collect()`, then
`server_parts[0]` as host and `server_parts.get(1).unwrap_or(&"80")` as
port. -/
def parseServerAddress (server : List Char) : List Char × List Char :=
  let server_parts := splitChar ':' server
  (server_parts.headD [], (server_parts[1]?).getD "80".data)

/-- Modelled from the spec: split the address on its LAST `':'` separator,
with port defaulting to `"80"` when no `':'` is present. -/
def lastColonSplit (server : List Char) : List Char × List Char :=
  let parts := splitChar ':' server
  if parts.length ≤ 1 then (server, "80".data)
  else (List.intercalate [':'] parts.dropLast, parts.getLastD [])

/-- `http::RequestHeader`, reduced to the URI that
`upstream_request_filter` could modify. -/
structure RequestHeader where
  uri : List Char
  deriving DecidableEq, Repr

/-- `EnhancedProxyService::upstream_request_filter` (lines 133-177).
Returns the upstream request header together with the lines printed:
every branch falls through to the final `println!` and `Ok(())`; the
computed `new_uri` is only interpolated into a `println!`, never assigned
to `upstream_request`. -/
def enhancedUpstreamRequestFilter (cfg : ProxyConfig) (reqPath : List Char)
    (upstream_request : RequestHeader) : RequestHeader × List (List Char) :=
  let finalLog := "Proxying request to: ".data ++ upstream_request.uri
  match findLocation cfg.locations reqPath with
  | some loc =>
    match loc.location_type with
    | LocationType.proxy =>
      match loc.proxy_pass with
      | some proxy_pass =>
        match getUpstreamConfig cfg proxy_pass with
        | some upstream_config =>
          match selectUpstreamServer upstream_config with
          | some server =>
            let new_path :=
              if loc.path.length < reqPath.length then reqPath.drop loc.path.length
              else "/".data
            let hp := parseServerAddress server
            let new_uri := "http://".data ++ hp.1 ++ ':' :: (hp.2 ++ new_path)
            (upstream_request, ["Would proxy to: ".data ++ new_uri, finalLog])
          | none => (upstream_request, [finalLog])
        | none => (upstream_request, [finalLog])
      | none => (upstream_request, [finalLog])
    | LocationType.staticFiles => (upstream_request, [finalLog])
  | none => (upstream_request, [finalLog])

/-!
## Concrete demonstration data
-/

/-- A proxy location `/api/` forwarding to upstream `kafka`. -/
def demoLocApi : LocationConfig :=
  ⟨"/api/".data, LocationType.proxy, some "kafka".data, none, none⟩

/-- A second proxy location with the same path length as `demoLocApi`,
declared later. -/
def demoLocApiV : LocationConfig :=
  ⟨"/api/".data, LocationType.proxy, some "other".data, none, none⟩

/-- A catch-all static location. -/
def demoLocRoot : LocationConfig :=
  ⟨"/".data, LocationType.staticFiles, none, some "./www".data, none⟩

/-- A demonstration rule list. -/
def demoLocs : List LocationConfig := [demoLocRoot, demoLocApi, demoLocApiV]

/-- A demonstration request path. -/
def demoPath : List Char := "/api/users".data

/-- An upstream with two servers and the default `"roundrobin"` strategy. -/
def demoUpstreamTwo : UpstreamConfig :=
  ⟨["127.0.0.1:8081".data, "127.0.0.1:8082".data], "roundrobin".data⟩

/-- A demonstration proxy configuration. -/
def demoConfig : ProxyConfig :=
  ⟨"proxy".data, "0.0.0.0:8080".data, false, none, none,
    [("kafka".data, demoUpstreamTwo)], demoLocs⟩

/-- A filesystem where `www/a.txt` is a regular file whose read fails with
a permission error, and nothing else exists. -/
def demoPermFs : FileSystem :=
  ⟨fun p => if p = ["www".data, "a.txt".data] then FileKind.regular else FileKind.missing,
   fun _ => Except.error FsError.permissionDenied⟩

/-- A filesystem where `www/a.html` and `www/a.png` are regular files with
identical contents. -/
def demoStaticFs : FileSystem :=
  ⟨fun p =>
      if p = ["www".data, "a.html".data] ∨ p = ["www".data, "a.png".data] then
        FileKind.regular
      else FileKind.missing,
   fun _ => Except.ok [60, 98, 62]⟩

/-!
## Helper lemmas
-/

theorem splitChar_ne_nil (sep : Char) (s : List Char) : splitChar sep s ≠ [] := by
  cases s with
  | nil => simp [splitChar]
  | cons c cs =>
    simp only [splitChar]
    by_cases h : c = sep
    · simp [h]
    · simp only [h, if_false]
      cases splitChar sep cs <;> simp

theorem splitChar_of_not_mem (sep : Char) (s : List Char) (h : ¬ sep ∈ s) :
    splitChar sep s = [s] := by
  induction s with
  | nil => rfl
  | cons c cs ih =>
    have hc : ¬ c = sep := fun hc => h (hc ▸ List.mem_cons_self c cs)
    have hcs : ¬ sep ∈ cs := fun hm => h (List.mem_cons_of_mem c hm)
    simp only [splitChar, hc, if_false, ih hcs]

theorem splitChar_append_sep (sep : Char) (a b : List Char) (h : ¬ sep ∈ a) :
    splitChar sep (a ++ sep :: b) = a :: splitChar sep b := by
  induction a with
  | nil => simp [splitChar]
  | cons c cs ih =>
    have hc : ¬ c = sep := fun hc => h (hc ▸ List.mem_cons_self c cs)
    have hcs : ¬ sep ∈ cs := fun hm => h (List.mem_cons_of_mem c hm)
    simp only [List.cons_append, splitChar, hc, if_false, List.append_eq, ih hcs]

theorem stripPrefixChars_append (pre rest : List Char) :
    stripPrefixChars pre (pre ++ rest) = some rest := by
  induction pre with
  | nil => rfl
  | cons p ps ih => simp [stripPrefixChars, ih]

theorem pushComponents_extends_root (cs : List (List Char)) (root : List (List Char)) :
    root <+: pushComponents root cs := by
  induction cs generalizing root with
  | nil => exact List.prefix_refl root
  | cons c cs ih =>
    simp only [pushComponents]
    by_cases h : isNormalComponent c = true
    · simp only [h, if_true]
      exact List.IsPrefix.trans (List.prefix_append root [c]) (ih (root ++ [c]))
    · simp only [h, if_false]
      exact ih root

theorem mem_insertLoc {z x : LocationConfig} {s : List LocationConfig} :
    z ∈ insertLoc x s ↔ z = x ∨ z ∈ s := by
  induction s with
  | nil => simp [insertLoc]
  | cons y ys ih =>
    simp only [insertLoc]
    by_cases h : y.path.length ≤ x.path.length
    · simp [h, List.mem_cons]
    · simp only [h, if_false, List.mem_cons, ih]
      tauto

theorem insertLoc_sorted (x : LocationConfig) (s : List LocationConfig)
    (hs : s.Pairwise (fun a b => b.path.length ≤ a.path.length)) :
    (insertLoc x s).Pairwise (fun a b => b.path.length ≤ a.path.length) := by
  induction s with
  | nil => simp [insertLoc]
  | cons y ys ih =>
    rcases List.pairwise_cons.mp hs with ⟨hy, hys⟩
    simp only [insertLoc]
    by_cases h : y.path.length ≤ x.path.length
    · simp only [h, if_true]
      refine List.pairwise_cons.mpr ⟨?_, hs⟩
      intro z hz
      rcases List.mem_cons.mp hz with rfl | hz
      · exact h
      · exact le_trans (hy z hz) h
    · simp only [h, if_false]
      refine List.pairwise_cons.mpr ⟨?_, ih hys⟩
      intro z hz
      rcases mem_insertLoc.mp hz with rfl | hz
      · exact le_of_not_le h
      · exact hy z hz

theorem sortLocs_sorted (locs : List LocationConfig) :
    (sortLocs locs).Pairwise (fun a b => b.path.length ≤ a.path.length) := by
  induction locs with
  | nil => simp [sortLocs]
  | cons x xs ih => exact insertLoc_sorted x (sortLocs xs) ih

theorem find?_insertLoc (path : List Char) (x : LocationConfig) (s : List LocationConfig)
    (hs : s.Pairwise (fun a b => b.path.length ≤ a.path.length)) :
    (insertLoc x s).find? (fun l => l.path.isPrefixOf path) =
      match s.find? (fun l => l.path.isPrefixOf path) with
      | none => if x.path.isPrefixOf path then some x else none
      | some b =>
        if x.path.length < b.path.length then some b
        else if x.path.isPrefixOf path then some x else some b := by
  induction s with
  | nil =>
    by_cases hx : x.path.isPrefixOf path <;>
      simp [insertLoc, List.find?, hx]
  | cons y ys ih =>
    rcases List.pairwise_cons.mp hs with ⟨hy, hys⟩
    have hlen : ∀ b, (y :: ys).find? (fun l => l.path.isPrefixOf path) = some b →
        b.path.length ≤ y.path.length := by
      intro b hb
      rcases List.mem_cons.mp (List.mem_of_find?_eq_some hb) with rfl | hmem
      · exact le_refl _
      · exact hy b hmem
    simp only [insertLoc]
    by_cases h : y.path.length ≤ x.path.length
    · simp only [h, if_true]
      cases hf : (y :: ys).find? (fun l => l.path.isPrefixOf path) with
      | none =>
        by_cases hx : x.path.isPrefixOf path <;>
          simp [List.find?_cons, hx, hf]
      | some b =>
        have hble : ¬ x.path.length < b.path.length :=
          not_lt.mpr (le_trans (hlen b hf) h)
        by_cases hx : x.path.isPrefixOf path <;>
          simp [List.find?_cons, hx, hf, hble]
    · simp only [h, if_false]
      by_cases hyp : y.path.isPrefixOf path
      · have hxb : x.path.length < y.path.length := lt_of_not_le h
        simp [List.find?_cons, hyp, hxb]
      · have hrw : List.find? (fun l => l.path.isPrefixOf path) (y :: insertLoc x ys) =
            List.find? (fun l => l.path.isPrefixOf path) (insertLoc x ys) :=
          List.find?_cons_of_neg _ hyp
        have hrw2 : List.find? (fun l => l.path.isPrefixOf path) (y :: ys) =
            List.find? (fun l => l.path.isPrefixOf path) ys :=
          List.find?_cons_of_neg _ hyp
        rw [hrw, hrw2]
        exact ih hys

theorem findLocation_eq_specResolve (locs : List LocationConfig) (path : List Char) :
    findLocation locs path = specResolve path locs := by
  induction locs with
  | nil => rfl
  | cons l ls ih =>
    unfold findLocation at ih ⊢
    simp only [sortLocs]
    rw [find?_insertLoc path l (sortLocs ls) (sortLocs_sorted ls), ih]
    simp only [specResolve]
    cases hr : specResolve path ls with
    | none => rfl
    | some b =>
      simp only [List.isPrefixOf_iff_prefix, gt_iff_lt]
      by_cases hx : l.path <+: path <;>
        by_cases hlt : l.path.length < b.path.length <;>
          simp [hx, hlt]

theorem specResolve_none_iff (path : List Char) (locs : List LocationConfig) :
    specResolve path locs = none ↔ ∀ l ∈ locs, ¬ l.path <+: path := by
  induction locs with
  | nil => simp [specResolve]
  | cons l ls ih =>
    simp only [specResolve]
    cases hr : specResolve path ls with
    | none =>
      rw [List.forall_mem_cons]
      by_cases hx : l.path <+: path
      · rw [if_pos (List.isPrefixOf_iff_prefix.mpr hx)]
        exact iff_of_false (Option.some_ne_none l) (fun hc => hc.1 hx)
      · rw [if_neg (fun hc => hx (List.isPrefixOf_iff_prefix.mp hc))]
        exact iff_of_true rfl ⟨hx, ih.mp hr⟩
    | some b =>
      rw [List.forall_mem_cons]
      have hne : ¬ ∀ x ∈ ls, ¬ x.path <+: path := by
        intro hall
        rw [ih.mpr hall] at hr
        exact Option.noConfusion hr
      refine iff_of_false ?_ (fun hc => hne hc.2)
      cases hx : l.path.isPrefixOf path with
      | true =>
        by_cases hlt : b.path.length > l.path.length
        · simp [hx, hlt]
        · simp [hx, hlt]
      | false => simp [hx]

theorem specResolve_some_spec (path : List Char) (locs : List LocationConfig)
    (l : LocationConfig) (h : specResolve path locs = some l) :
    l ∈ locs ∧ l.path <+: path ∧
      ∀ l2 ∈ locs, l2.path <+: path → l2.path.length ≤ l.path.length := by
  induction locs generalizing l with
  | nil => exact Option.noConfusion h
  | cons l0 ls ih =>
    simp only [specResolve] at h
    cases hr : specResolve path ls with
    | none =>
      simp only [hr] at h
      have hnomatch := (specResolve_none_iff path ls).mp hr
      by_cases hx : l0.path.isPrefixOf path = true
      · rw [if_pos hx] at h
        injection h with h
        subst h
        refine ⟨List.mem_cons_self _ _, List.isPrefixOf_iff_prefix.mp hx, ?_⟩
        intro l2 hl2 hl2p
        rcases List.mem_cons.mp hl2 with rfl | hl2m
        · exact le_refl _
        · exact absurd hl2p (hnomatch l2 hl2m)
      · rw [if_neg hx] at h
        exact Option.noConfusion h
    | some b =>
      simp only [hr] at h
      rcases ih b hr with ⟨hbmem, hbpre, hbmax⟩
      by_cases hx : l0.path.isPrefixOf path = true
      · rw [if_pos hx] at h
        by_cases hlt : b.path.length > l0.path.length
        · rw [if_pos hlt] at h
          injection h with h
          subst h
          refine ⟨List.mem_cons_of_mem _ hbmem, hbpre, ?_⟩
          intro l2 hl2 hl2p
          rcases List.mem_cons.mp hl2 with rfl | hl2m
          · exact le_of_lt hlt
          · exact hbmax l2 hl2m hl2p
        · rw [if_neg hlt] at h
          injection h with h
          subst h
          refine ⟨List.mem_cons_self _ _, List.isPrefixOf_iff_prefix.mp hx, ?_⟩
          intro l2 hl2 hl2p
          rcases List.mem_cons.mp hl2 with rfl | hl2m
          · exact le_refl _
          · exact le_trans (hbmax l2 hl2m hl2p) (not_lt.mp hlt)
      · rw [if_neg hx] at h
        injection h with h
        subst h
        refine ⟨List.mem_cons_of_mem _ hbmem, hbpre, ?_⟩
        intro l2 hl2 hl2p
        rcases List.mem_cons.mp hl2 with rfl | hl2m
        · exact absurd (List.isPrefixOf_iff_prefix.mpr hl2p) hx
        · exact hbmax l2 hl2m hl2p

/-!
## Claim theorems
-/

/-- C1: For every root directory and every request-path string (including
strings with any number of `..`, `.`, empty or absolute-root components),
the path returned by `sanitize_path` is the root itself or a strict
descendant of the root: the root's component list is a prefix of the
result, so the result is never an ancestor or a sibling of the root. -/
theorem sanitizePath_descendant_of_root (root : List (List Char)) (path : List Char) :
    root <+: sanitizePath root path :=
  pushComponents_extends_root _ root

/-- C9: although its signature is `Result`, `sanitize_path` always returns
`Ok`: the error branch is unreachable, and `serve_file` therefore always
reaches its filesystem checks with the sanitized path, never propagating a
sanitization error. -/
theorem sanitizePathResult_total (root : List (List Char)) (path : List Char) :
    sanitizePathResult root path = Except.ok (sanitizePath root path) ∧
    ∀ fs, serveFile fs root path = serveFileCore fs (sanitizePath root path) :=
  ⟨rfl, fun _ => rfl⟩

/-- C2: `find_location` returns, among all rules whose `path` is a literal
prefix of the request path, the rule with the longest prefix, the
earliest-declared one on ties (first conjunct: equivalence with the spec's
selection rule `specResolve`); it returns `none` exactly when no rule's
prefix matches (second conjunct); and any returned rule is a configured,
matching rule of maximal prefix length (third conjunct). -/
theorem findLocation_longest_earliest (locs : List LocationConfig) (path : List Char) :
    findLocation locs path = specResolve path locs ∧
    (findLocation locs path = none ↔ ∀ l ∈ locs, ¬ l.path <+: path) ∧
    ∀ l, findLocation locs path = some l →
      l ∈ locs ∧ l.path <+: path ∧
        ∀ l2 ∈ locs, l2.path <+: path → l2.path.length ≤ l.path.length := by
  refine ⟨findLocation_eq_specResolve locs path, ?_, ?_⟩
  · rw [findLocation_eq_specResolve locs path]
    exact specResolve_none_iff path locs
  · intro l hl
    rw [findLocation_eq_specResolve locs path] at hl
    exact specResolve_some_spec path locs l hl

/-- Witness for C2 at a concrete rule list: `/api/users` resolves to the
earliest `/api/` rule, and the matching `/` rule is not longer. -/
theorem findLocation_longest_earliest_witness :
    demoLocApi ∈ demoLocs ∧ demoLocApi.path <+: demoPath ∧
      demoLocRoot.path.length ≤ demoLocApi.path.length := by
  have h := (findLocation_longest_earliest demoLocs demoPath).2.2 demoLocApi (by decide)
  exact ⟨h.1, h.2.1, h.2.2 demoLocRoot (by decide) (by decide)⟩

/-- C3 (refuting evidence): `select_upstream_server` is not round-robin.
On an upstream with `k = 2` servers and the default `"roundrobin"`
strategy, two sequential calls both return the first server: the second
server is visited `0` times instead of `⌊2/2⌋ = 1`, and two calls in
temporal sequence return the same index although `k ≠ 1`. -/
theorem selectUpstreamServer_always_first :
    selectSequence 2 demoUpstreamTwo =
      [some "127.0.0.1:8081".data, some "127.0.0.1:8081".data] ∧
    (selectSequence 2 demoUpstreamTwo).count (some "127.0.0.1:8082".data) = 0 ∧
    demoUpstreamTwo.servers.length = 2 ∧
    demoUpstreamTwo.lb_strategy = "roundrobin".data := by
  exact ⟨by decide, by decide, by decide, by decide⟩

/-- C5: during dispatch of a matched proxy rule, `upstream_peer` fails with
the `"Upstream not found"` error exactly when the rule's upstream name is
not registered, fails with the `"No servers in upstream"` error exactly
when the registered upstream has zero servers (checked at dispatch time —
the config loader performs no validation), and otherwise returns a peer
built from the selected server of exactly that upstream. -/
theorem upstreamPeer_error_characterization (cfg : ProxyConfig) (path : List Char)
    (loc : LocationConfig) (name : List Char)
    (hloc : findLocation cfg.locations path = some loc)
    (htype : loc.location_type = LocationType.proxy)
    (hpass : loc.proxy_pass = some name) :
    (upstreamPeer cfg path = Except.error PeerError.unknownUpstream ↔
      getUpstreamConfig cfg name = none) ∧
    (upstreamPeer cfg path = Except.error PeerError.emptyUpstream ↔
      ∃ u, getUpstreamConfig cfg name = some u ∧ u.servers = []) ∧
    (∀ u s rest, getUpstreamConfig cfg name = some u → u.servers = s :: rest →
      upstreamPeer cfg path = Except.ok ⟨s, cfg.ssl, cfg.server_name⟩) := by
  cases hu : getUpstreamConfig cfg name with
  | none =>
    simp [upstreamPeer, hloc, htype, hpass, hu]
  | some u =>
    cases hs : u.servers with
    | nil =>
      simp [upstreamPeer, hloc, htype, hpass, hu, selectUpstreamServer, hs]
      intro u1 s rest hequ
      subst hequ
      simp [hs]
    | cons s rest =>
      simp [upstreamPeer, hloc, htype, hpass, hu, selectUpstreamServer, hs]
      intro u1 s1 rest1 hequ hserv
      subst hequ
      rw [hs] at hserv
      injection hserv

/-- Witness for C5: in the demo configuration, `/api/users` dispatches to
the first (and only ever) server of the `kafka` upstream. -/
theorem upstreamPeer_error_characterization_witness :
    upstreamPeer demoConfig demoPath =
      Except.ok ⟨"127.0.0.1:8081".data, false, "proxy".data⟩ := by
  have h := upstreamPeer_error_characterization demoConfig demoPath demoLocApi
    "kafka".data (by decide) (by decide) (by decide)
  exact h.2.2 demoUpstreamTwo "127.0.0.1:8081".data ["127.0.0.1:8082".data]
    (by decide) (by decide)

/-- C6: when the sanitized path does not denote a regular file,
`serve_file` succeeds with the fixed `"Not Found"` byte payload; when it
does denote a regular file, the read result — including any I/O error such
as a permission failure — is returned as is, never masked as the
not-found payload. -/
theorem serveFile_notfound_payload_and_read_errors (fs : FileSystem)
    (root : List (List Char)) (path : List Char) :
    (fs.stat (sanitizePath root path) ≠ FileKind.regular →
      serveFile fs root path = Except.ok notFoundBytes) ∧
    (∀ e, fs.stat (sanitizePath root path) = FileKind.regular →
      fs.read (sanitizePath root path) = Except.error e →
      serveFile fs root path = Except.error e) ∧
    (∀ bs, fs.stat (sanitizePath root path) = FileKind.regular →
      fs.read (sanitizePath root path) = Except.ok bs →
      serveFile fs root path = Except.ok bs) := by
  refine ⟨?_, ?_, ?_⟩
  · intro hnf
    cases hstat : fs.stat (sanitizePath root path) <;>
      simp_all [serveFile, serveFileCore, sanitizePathResult, pathExists, pathIsFile]
  · intro e hstat hread
    simp [serveFile, serveFileCore, sanitizePathResult, pathExists, pathIsFile, hstat, hread]
  · intro bs hstat hread
    simp [serveFile, serveFileCore, sanitizePathResult, pathExists, pathIsFile, hstat, hread]

/-- Witness for C6: on `demoPermFs`, requesting `/a.txt` surfaces the
permission error, and requesting the absent `/b.txt` yields the
`"Not Found"` payload. -/
theorem serveFile_notfound_payload_and_read_errors_witness :
    serveFile demoPermFs ["www".data] "/a.txt".data =
      Except.error FsError.permissionDenied ∧
    serveFile demoPermFs ["www".data] "/b.txt".data = Except.ok notFoundBytes := by
  refine ⟨?_, ?_⟩
  · exact (serveFile_notfound_payload_and_read_errors demoPermFs ["www".data]
      "/a.txt".data).2.1 FsError.permissionDenied (by decide) rfl
  · exact (serveFile_notfound_payload_and_read_errors demoPermFs ["www".data]
      "/b.txt".data).1 (by decide)

/-- C4 fails as stated: for rule prefix `/api` and request `/api/users`,
the code rewrites to `//users` (a `'/'` is always prepended to the
stripped remainder), while the claim's rule — prefix removed, `"/"` only
when the remainder is empty — yields `/users`. -/
theorem rewritePathAndQuery_counterexample :
    rewritePathAndQuery "/api".data "/api/users".data none = "//users".data ∧
    claimRewritePathAndQuery "/api".data "/api/users".data none = "/users".data ∧
    rewritePathAndQuery "/api".data "/api/users".data none ≠
      claimRewritePathAndQuery "/api".data "/api/users".data none := by
  exact ⟨by decide, by decide, by decide⟩

/-- C4 (amended): the outbound rewritten path equals `"/"` concatenated
with the request path after removing the matched rule prefix (hence `"/"`
when the remainder is empty), with the original query string re-appended
when present; in particular `/api/` + `/api/users?id=5` rewrites to
`/users?id=5` and `/api/` + `/api/` rewrites to `/`. -/
theorem rewritePathAndQuery_amended (locPath rest q : List Char) :
    rewritePathAndQuery locPath (locPath ++ rest) none = '/' :: rest ∧
    rewritePathAndQuery locPath (locPath ++ rest) (some q) = '/' :: (rest ++ '?' :: q) ∧
    rewritePathAndQuery "/api/".data "/api/users".data (some "id=5".data) =
      "/users?id=5".data ∧
    rewritePathAndQuery "/api/".data "/api/".data none = "/".data := by
  refine ⟨?_, ?_, by decide, by decide⟩ <;>
    simp [rewritePathAndQuery, stripPrefixChars_append]

/-- C7 fails as stated: the code splits the server address at its FIRST
`':'`, not its last.  For the address `a:b:c` the code produces host `a`
and port `b`, while a last-colon split produces host `a:b` and port `c`. -/
theorem parseServerAddress_counterexample :
    parseServerAddress "a:b:c".data = ("a".data, "b".data) ∧
    lastColonSplit "a:b:c".data = ("a:b".data, "c".data) ∧
    parseServerAddress "a:b:c".data ≠ lastColonSplit "a:b:c".data := by
  exact ⟨by decide, by decide, by decide⟩

/-- C7 (amended): the forward target's host is the part of the server
address before the FIRST `':'` and the port is the piece between the first
and second `':'` (the whole remainder when there is no second `':'`),
defaulting to `80` when the address has no `':'` at all; in particular
`10.0.0.1:9000` yields host `10.0.0.1` and port `9000`, and a colon-free
address yields port `80`. -/
theorem parseServerAddress_first_colon (host rest : List Char) (hh : ¬ ':' ∈ host) :
    parseServerAddress host = (host, "80".data) ∧
    parseServerAddress (host ++ ':' :: rest) = (host, (splitChar ':' rest).headD []) ∧
    parseServerAddress "10.0.0.1:9000".data = ("10.0.0.1".data, "9000".data) ∧
    parseServerAddress "10.0.0.1".data = ("10.0.0.1".data, "80".data) := by
  refine ⟨?_, ?_, by decide, by decide⟩
  · simp [parseServerAddress, splitChar_of_not_mem ':' host hh]
  · rw [parseServerAddress, splitChar_append_sep ':' host rest hh]
    cases hsp : splitChar ':' rest with
    | nil => exact absurd hsp (splitChar_ne_nil ':' rest)
    | cons h t => simp [hsp]

/-- Witness for C7 at the concrete address `h:90:x`. -/
theorem parseServerAddress_first_colon_witness :
    ("h".data ++ ':' :: "90:x".data = "h:90:x".data) ∧
    parseServerAddress ("h".data ++ ':' :: "90:x".data) =
      ("h".data, (splitChar ':' "90:x".data).headD []) :=
  ⟨by decide, (parseServerAddress_first_colon "h".data "90:x".data (by decide)).2.1⟩

/-- C8 fails as stated: `serve_file` returns only the raw file bytes; the
extension-derived classification is not part of its result.  Two files
whose extensions classify differently (`text/html` vs `image/png`) but
hold identical bytes produce identical `serve_file` responses. -/
theorem serveFile_no_content_type_counterexample :
    guessContentType "/www/a.html".data = "text/html" ∧
    guessContentType "/www/a.png".data = "image/png" ∧
    serveFile demoStaticFs ["www".data] "/a.html".data = Except.ok [60, 98, 62] ∧
    serveFile demoStaticFs ["www".data] "/a.png".data = Except.ok [60, 98, 62] ∧
    serveFile demoStaticFs ["www".data] "/a.html".data =
      serveFile demoStaticFs ["www".data] "/a.png".data := by
  exact ⟨by decide, by decide, rfl, rfl, rfl⟩

/-- C8 (amended): `guess_content_type` classifies purely from the file's
extension (same extension, same classification) according to the closed
mapping html/htm→text/html, css→text/css, js→application/javascript,
json→application/json, png→image/png, jpg/jpeg→image/jpeg, gif→image/gif,
svg→image/svg+xml, ico→image/x-icon, txt→text/plain, xml→application/xml,
pdf→application/pdf, anything else→application/octet-stream; `serve_file`,
however, returns only the file bytes on success and does not attach this
classification. -/
theorem guessContentType_closed_mapping (p q e : List Char)
    (hpq : extensionOf p = extensionOf q) :
    guessContentType p = guessContentType q ∧
    (extensionOf p = some "html".data → guessContentType p = "text/html") ∧
    (extensionOf p = some "htm".data → guessContentType p = "text/html") ∧
    (extensionOf p = some "css".data → guessContentType p = "text/css") ∧
    (extensionOf p = some "js".data → guessContentType p = "application/javascript") ∧
    (extensionOf p = some "json".data → guessContentType p = "application/json") ∧
    (extensionOf p = some "png".data → guessContentType p = "image/png") ∧
    (extensionOf p = some "jpg".data → guessContentType p = "image/jpeg") ∧
    (extensionOf p = some "jpeg".data → guessContentType p = "image/jpeg") ∧
    (extensionOf p = some "gif".data → guessContentType p = "image/gif") ∧
    (extensionOf p = some "svg".data → guessContentType p = "image/svg+xml") ∧
    (extensionOf p = some "ico".data → guessContentType p = "image/x-icon") ∧
    (extensionOf p = some "txt".data → guessContentType p = "text/plain") ∧
    (extensionOf p = some "xml".data → guessContentType p = "application/xml") ∧
    (extensionOf p = some "pdf".data → guessContentType p = "application/pdf") ∧
    (extensionOf p = none → guessContentType p = "application/octet-stream") ∧
    (extensionOf p = some e →
      e ∉ ["html".data, "htm".data, "css".data, "js".data, "json".data, "png".data,
        "jpg".data, "jpeg".data, "gif".data, "svg".data, "ico".data, "txt".data,
        "xml".data, "pdf".data] →
      guessContentType p = "application/octet-stream") ∧
    (∀ fs root path bs, fs.stat (sanitizePath root path) = FileKind.regular →
      fs.read (sanitizePath root path) = Except.ok bs →
      serveFile fs root path = Except.ok bs) := by
  refine ⟨by rw [guessContentType, hpq, guessContentType], ?_, ?_, ?_, ?_, ?_, ?_, ?_,
    ?_, ?_, ?_, ?_, ?_, ?_, ?_, ?_, ?_, ?_⟩
  · intro h
    simp only [guessContentType, h]
    decide
  · intro h
    simp only [guessContentType, h]
    decide
  · intro h
    simp only [guessContentType, h]
    decide
  · intro h
    simp only [guessContentType, h]
    decide
  · intro h
    simp only [guessContentType, h]
    decide
  · intro h
    simp only [guessContentType, h]
    decide
  · intro h
    simp only [guessContentType, h]
    decide
  · intro h
    simp only [guessContentType, h]
    decide
  · intro h
    simp only [guessContentType, h]
    decide
  · intro h
    simp only [guessContentType, h]
    decide
  · intro h
    simp only [guessContentType, h]
    decide
  · intro h
    simp only [guessContentType, h]
    decide
  · intro h
    simp only [guessContentType, h]
    decide
  · intro h
    simp only [guessContentType, h]
    decide
  · intro h
    simp only [guessContentType, h]
  · intro h hm
    simp only [List.mem_cons, List.not_mem_nil, or_false, not_or] at hm
    obtain ⟨h1, h2, h3, h4, h5, h6, h7, h8, h9, h10, h11, h12, h13, h14⟩ := hm
    simp [guessContentType, h, h1, h2, h3, h4, h5, h6, h7, h8, h9, h10, h11,
      h12, h13, h14]
  · intro fs root path bs hstat hread
    simp [serveFile, serveFileCore, sanitizePathResult, pathExists, pathIsFile,
      hstat, hread]

/-- Witness for C8 at concrete paths with equal extensions. -/
theorem guessContentType_closed_mapping_witness :
    guessContentType "a.css".data = guessContentType "b.css".data ∧
    guessContentType "a.css".data = "text/css" := by
  have h := guessContentType_closed_mapping "a.css".data "b.css".data "zzz".data
    (by decide)
  exact ⟨h.1, h.2.2.2.1 (by decide)⟩

/-- C10: `EnhancedProxyService::upstream_request_filter` leaves the
upstream request header unchanged in every branch: the rewritten URI is
computed and printed but never set, so the forwarded request keeps the
original URI including the matched location prefix. -/
theorem enhancedUpstreamRequestFilter_preserves_request (cfg : ProxyConfig)
    (reqPath : List Char) (upstream_request : RequestHeader) :
    (enhancedUpstreamRequestFilter cfg reqPath upstream_request).1 = upstream_request := by
  unfold enhancedUpstreamRequestFilter
  (repeat' split) <;> rfl

end ClamberWebCore
